import Mathlib

/-!
# Verification of the COVID dashboard transformation core (`src/app.py`)

A shallow embedding of the data-transformation pipeline of the dashboard:
the base dataset is a `List Record` (one element per CSV row, dates already
parsed by the Loader), and each pandas expression of the source is embedded
as a pure Lean function on that list.

Modelling conventions:
* A data frame is a list of rows in order; `pandas.groupby(key)` with the
  default `sort=True` yields one row per distinct key, keys in ascending
  order, so it is embedded as `sortedKeys` (first-seen deduplication
  followed by an ascending sort) with one aggregated row per key.
* `drop_duplicates()` keeps the first occurrence of each value, embedded as
  `firstSeen`.
* `merge(..., how="left")` matches every left row with every right row that
  shares the key, in right-frame order, embedded as a filter over the right
  frame inside a `flatMap`; an unmatched left row is kept once with a
  missing (`none`) code.
* A possibly-missing CSV text field (`countryterritoryCode` can be NaN) is
  an `Option String`; pandas `drop_duplicates` treats NaN values as equal,
  which matches `Option` equality.
* `Series.mean()` returns NaN on an empty series and the source immediately
  maps that NaN to the "no data" warning, so the range query is embedded as
  an `Option ℚ` that is `none` exactly on the NaN path.
* `sort_values` sorts by the given column; the claims proved here do not
  depend on the order of ties, so a stable insertion sort is used.
-/

namespace Covid

/-- A calendar date as parsed by `pd.to_datetime(..., format="%d/%m/%Y")`
(`src/app.py:17`): a year/month/day triple. -/
structure Date where
  year : Nat
  month : Nat
  day : Nat
deriving Repr, DecidableEq

/-- The chronological sort key of a date: lexicographic on
(year, month, day), which is exactly the order of the parsed datetimes. -/
def Date.key (d : Date) : Lex (Nat × Lex (Nat × Nat)) :=
  toLex (d.year, toLex (d.month, d.day))

theorem Date.key_injective : Function.Injective Date.key := by
  intro a b h
  have h1 := congrArg ofLex h
  have h2 : a.year = b.year := congrArg Prod.fst h1
  have h3 := congrArg (fun p => ofLex p.2) h1
  cases a; cases b
  simp only [Date.key, ofLex_toLex] at h2 h3
  simp_all [Prod.ext_iff]

instance : LinearOrder Date := LinearOrder.lift' Date.key Date.key_injective

/-- One row of the loaded dataset (`load_data`, `src/app.py:14-18`): the
columns used by the transformation core, with `dateRep` already parsed. -/
structure Record where
  dateRep : Date
  countriesAndTerritories : String
  countryterritoryCode : Option String
  cases : Int
  deaths : Int
deriving Repr, DecidableEq

/-- First-occurrence deduplication, the semantics of pandas
`drop_duplicates()`: keep each distinct value once, at its first position
(later occurrences of the head are filtered out of the deduplicated
tail). -/
def firstSeen {α : Type} [DecidableEq α] : List α → List α
  | [] => []
  | a :: l => a :: (firstSeen l).filter fun b => b ≠ a

/-- The key column of a pandas `groupby` with the default `sort=True`:
distinct keys, in ascending order. -/
def sortedKeys {α : Type} [DecidableEq α] [LinearOrder α] (l : List α) : List α :=
  List.insertionSort (· ≤ ·) (firstSeen l)

/-- The distinct country names of the dataset in groupby (ascending) order:
the row keys of `data.groupby("countriesAndTerritories")`. -/
def countryKeys (data : List Record) : List String :=
  sortedKeys (data.map Record.countriesAndTerritories)

/-- The distinct dates of the dataset in groupby (ascending) order: the row
keys of `data.groupby("dateRep")`. -/
def dateKeys (data : List Record) : List Date :=
  sortedKeys (data.map Record.dateRep)

/-- Sum of the `cases` column over the rows of one country: the aggregated
value of `groupby("countriesAndTerritories")["cases"].sum()`. -/
def casesSum (data : List Record) (c : String) : Int :=
  ((data.filter fun r => r.countriesAndTerritories = c).map Record.cases).sum

/-- Sum of the `deaths` column over the rows of one country. -/
def deathsSum (data : List Record) (c : String) : Int :=
  ((data.filter fun r => r.countriesAndTerritories = c).map Record.deaths).sum

/-- Sum of the `cases` column over the rows of one date: the aggregated
value of `groupby("dateRep")[["cases"]].sum()`. -/
def dailySum (data : List Record) (d : Date) : Int :=
  ((data.filter fun r => r.dateRep = d).map Record.cases).sum

/-- `iso_mapping` (`src/app.py:36`): the distinct
(`countriesAndTerritories`, `countryterritoryCode`) pairs present anywhere
in the dataset, first occurrence kept, in row order. -/
def iso_mapping (data : List Record) : List (String × Option String) :=
  firstSeen (data.map fun r => (r.countriesAndTerritories, r.countryterritoryCode))

/-- One row of the Totals-by-country projection after the code join. -/
structure CountryTotal where
  countriesAndTerritories : String
  cases : Int
  countryterritoryCode : Option String
deriving Repr, DecidableEq

/-- `total_cases_by_country` (`src/app.py:35-37`): group by country name
and sum `cases`, then left-merge with `iso_mapping` on the name. A pandas
left merge pairs each left row with every right row sharing the key, in
right-frame order, and keeps an unmatched left row once with a NaN code. -/
def total_cases_by_country (data : List Record) : List CountryTotal :=
  (countryKeys data).flatMap fun c =>
    if ((iso_mapping data).filter fun p => p.1 = c).isEmpty then
      [⟨c, casesSum data c, none⟩]
    else ((iso_mapping data).filter fun p => p.1 = c).map fun p =>
      ⟨c, casesSum data c, p.2⟩

/-- One row of the Daily projection. -/
structure DailyTotal where
  dateRep : Date
  cases : Int
deriving Repr, DecidableEq

/-- `daily_cases` (`src/app.py:68`): group by exact date (ignoring
country), sum `cases`; groupby emits the keys in ascending order. -/
def daily_cases (data : List Record) : List DailyTotal :=
  (dateKeys data).map fun d => ⟨d, dailySum data d⟩

/-- One row of the Cases-vs-deaths projection. -/
structure CountryCasesDeaths where
  countriesAndTerritories : String
  cases : Int
  deaths : Int
deriving Repr, DecidableEq

/-- `cases_deaths` (`src/app.py:85`): group by country name, sum `cases`
and `deaths` independently. -/
def cases_deaths (data : List Record) : List CountryCasesDeaths :=
  (countryKeys data).map fun c => ⟨c, casesSum data c, deathsSum data c⟩

/-- The ordering used by `sort_values(by="cases", ascending=False)`:
row `a` may precede row `b` when `b.cases ≤ a.cases`. -/
def casesDesc (a b : CountryTotal) : Prop := b.cases ≤ a.cases

instance : DecidableRel casesDesc := fun a b =>
  inferInstanceAs (Decidable (b.cases ≤ a.cases))

instance : IsTotal CountryTotal casesDesc := ⟨fun a b => le_total b.cases a.cases⟩

instance : IsTrans CountryTotal casesDesc := ⟨fun _ _ _ h1 h2 => le_trans h2 h1⟩

/-- `top_countries` (`src/app.py:104`): sort the Totals-by-country
projection descending by `cases` and keep the first 10 rows. -/
def top_countries (data : List Record) : List CountryTotal :=
  (List.insertionSort casesDesc (total_cases_by_country data)).take 10

/-- The `year_month` label of a date, as produced by
`.dt.to_period("M").astype(str)`: the text `YYYY-MM`. -/
def year_month (d : Date) : String :=
  toString d.year ++ "-" ++ (if d.month < 10 then "0" else "") ++ toString d.month

/-- One row of the frame fed to the monthly histogram: a dataset row of the
selected country with the truncated `year_month` column appended. -/
structure MonthlyRow where
  dateRep : Date
  countriesAndTerritories : String
  year_month : String
  cases : Int
  deaths : Int
deriving Repr, DecidableEq

/-- Appending the `year_month` column to one row (`src/app.py:129`). -/
def addYearMonth (r : Record) : MonthlyRow :=
  ⟨r.dateRep, r.countriesAndTerritories, year_month r.dateRep, r.cases, r.deaths⟩

/-- The ordering used by `sort_values(by="dateRep")`: ascending in the
pre-truncation date. -/
def dateAsc (a b : MonthlyRow) : Prop := a.dateRep ≤ b.dateRep

instance : DecidableRel dateAsc := fun a b =>
  inferInstanceAs (Decidable (a.dateRep ≤ b.dateRep))

instance : IsTotal MonthlyRow dateAsc := ⟨fun a b => le_total a.dateRep b.dateRep⟩

instance : IsTrans MonthlyRow dateAsc := ⟨fun _ _ _ h1 h2 => le_trans h1 h2⟩

/-- `country_cases` (`src/app.py:128-130`): restrict the dataset to the
selected country (on a copy), append the truncated `year_month` column, and
sort the rows by the original `dateRep` column. -/
def country_cases (data : List Record) (country : String) : List MonthlyRow :=
  List.insertionSort dateAsc
    ((data.filter fun r => r.countriesAndTerritories = country).map addYearMonth)

/-- `avg_period_country_cases` (`src/app.py:158-159`): the rows of the
selected country, on a copy of the dataset. The `pd.to_datetime` call at
`src/app.py:159` re-parses an already-parsed datetime column and is the
identity, so it does not appear. -/
def avg_period_country_cases (data : List Record) (country : String) : List Record :=
  data.filter fun r => r.countriesAndTerritories = country

/-- `mask` (`src/app.py:160`): the rows whose date lies within the
inclusive window `[s, e]`. -/
def mask (rows : List Record) (s e : Date) : List Record :=
  rows.filter fun r => s ≤ r.dateRep ∧ r.dateRep ≤ e

/-- `avg_cases` (`src/app.py:161-166`): the mean of `cases` over the
filtered rows. `Series.mean()` of an empty selection is NaN and the source
tests `np.isnan` to show the "no data" warning instead of a number, so the
empty case is `none` and a computed mean is `some`. -/
def avg_cases (data : List Record) (country : String) (s e : Date) : Option ℚ :=
  let rows := mask (avg_period_country_cases data country) s e
  if rows.isEmpty then none
  else some ((rows.map fun r => (r.cases : ℚ)).sum / (rows.length : ℚ))

/-- The data-model invariant of the spec (§3): for a given country name the
country code is constant across all records. -/
def CodeConsistent (data : List Record) : Prop :=
  ∀ r ∈ data, ∀ u ∈ data, r.countriesAndTerritories = u.countriesAndTerritories →
    r.countryterritoryCode = u.countryterritoryCode

instance (data : List Record) : Decidable (CodeConsistent data) :=
  decidable_of_iff
    (∀ r ∈ data, ∀ u ∈ data,
      r.countriesAndTerritories = u.countriesAndTerritories →
        r.countryterritoryCode = u.countryterritoryCode)
    Iff.rfl

/-- The value a view computes, for the state-passing model of one user
interaction. -/
inductive Output where
  | totals (t : List CountryTotal)
  | daily (t : List DailyTotal)
  | scatter (t : List CountryCasesDeaths)
  | ranked (t : List CountryTotal)
  | monthly (t : List MonthlyRow)
  | range (t : Option ℚ)
deriving Repr

/-- The five operations of the transformation core (Country Aggregator has
two projections). -/
inductive Op where
  | totalsByCountry
  | dailyTotals
  | casesVsDeaths
  | ranker
  | monthlyView (country : String)
  | rangeQuery (country : String) (s e : Date)
deriving Repr

/-- One operation as a state transformer on the base dataset: it returns
the base dataset it leaves behind together with its output. The monthly
view (`src/app.py:128`) and the range query (`src/app.py:158`) both call
`.copy()` before adding or re-parsing columns, so every mutation lands on
the copy and the base dataset passes through unchanged. -/
def runOp (base : List Record) : Op → List Record × Output
  | .totalsByCountry => (base, .totals (total_cases_by_country base))
  | .dailyTotals => (base, .daily (daily_cases base))
  | .casesVsDeaths => (base, .scatter (cases_deaths base))
  | .ranker => (base, .ranked (top_countries base))
  | .monthlyView c => (base, .monthly (country_cases base c))
  | .rangeQuery c s e => (base, .range (avg_cases base c s e))

/-- The base dataset left behind by a sequence of user interactions. -/
def runOps (base : List Record) (ops : List Op) : List Record :=
  ops.foldl (fun b op => (runOp b op).1) base

/-- The worked scenario of spec §8: countries A (10 and 20 cases on two
days) and B (5 cases on the first day). -/
def scenarioData : List Record :=
  [⟨⟨2020, 1, 1⟩, "A", some "AAA", 10, 1⟩,
   ⟨⟨2020, 1, 2⟩, "A", some "AAA", 20, 2⟩,
   ⟨⟨2020, 1, 1⟩, "B", some "BBB", 5, 0⟩]

/-- A dataset violating the §3 invariant: country A appears with two
distinct country codes. -/
def inconsistentData : List Record :=
  [⟨⟨2020, 1, 1⟩, "A", some "XXX", 1, 0⟩,
   ⟨⟨2020, 1, 2⟩, "A", some "YYY", 2, 0⟩]

/-! ## Library of facts about the embedded pandas primitives -/

theorem mem_firstSeen {α : Type} [DecidableEq α] (a : α) (l : List α) :
    a ∈ firstSeen l ↔ a ∈ l := by
  induction l with
  | nil => simp [firstSeen]
  | cons b l ih =>
    rw [firstSeen]
    by_cases hab : a = b
    · subst hab; simp
    · simp only [List.mem_cons, List.mem_filter, ih]
      simp [hab]

theorem nodup_firstSeen {α : Type} [DecidableEq α] (l : List α) :
    (firstSeen l).Nodup := by
  induction l with
  | nil => simp [firstSeen]
  | cons b l ih =>
    rw [firstSeen]
    refine List.nodup_cons.mpr ⟨fun hb => ?_, ih.filter _⟩
    simp [List.mem_filter] at hb

theorem sortedKeys_perm {α : Type} [DecidableEq α] [LinearOrder α] (l : List α) :
    List.Perm (sortedKeys l) (firstSeen l) :=
  List.perm_insertionSort _ _

theorem mem_sortedKeys {α : Type} [DecidableEq α] [LinearOrder α] (a : α) (l : List α) :
    a ∈ sortedKeys l ↔ a ∈ l := by
  rw [(sortedKeys_perm l).mem_iff]
  exact mem_firstSeen a l

theorem nodup_sortedKeys {α : Type} [DecidableEq α] [LinearOrder α] (l : List α) :
    (sortedKeys l).Nodup :=
  ((sortedKeys_perm l).nodup_iff).mpr (nodup_firstSeen l)

theorem sorted_sortedKeys {α : Type} [DecidableEq α] [LinearOrder α] (l : List α) :
    (sortedKeys l).Sorted (· ≤ ·) :=
  List.sorted_insertionSort _ _

theorem strictSorted_sortedKeys {α : Type} [DecidableEq α] [LinearOrder α] (l : List α) :
    (sortedKeys l).Sorted (· < ·) :=
  (sorted_sortedKeys l).lt_of_le (nodup_sortedKeys l)

theorem mem_countryKeys (data : List Record) (c : String) :
    c ∈ countryKeys data ↔ c ∈ data.map Record.countriesAndTerritories :=
  mem_sortedKeys c _

theorem mem_dateKeys (data : List Record) (d : Date) :
    d ∈ dateKeys data ↔ d ∈ data.map Record.dateRep :=
  mem_sortedKeys d _

theorem sum_map_add_int {κ : Type} (ks : List κ) (v w : κ → Int) :
    (ks.map fun d => v d + w d).sum = (ks.map v).sum + (ks.map w).sum := by
  induction ks with
  | nil => simp
  | cons k ks ih => simp only [List.map_cons, List.sum_cons, ih]; ring

theorem sum_map_ite_of_not_mem {κ : Type} [DecidableEq κ] (ks : List κ) (x : κ) (c : Int)
    (hx : x ∉ ks) : (ks.map fun d => if x = d then c else 0).sum = 0 := by
  induction ks with
  | nil => simp
  | cons k ks ih =>
    simp only [List.mem_cons, not_or] at hx
    simp [hx.1, ih hx.2]

theorem sum_map_ite_of_mem {κ : Type} [DecidableEq κ] (ks : List κ) (x : κ) (c : Int)
    (hn : ks.Nodup) (hx : x ∈ ks) : (ks.map fun d => if x = d then c else 0).sum = c := by
  induction ks with
  | nil => cases hx
  | cons k ks ih =>
    rcases List.mem_cons.mp hx with h | h
    · subst h
      have hxk : x ∉ ks := (List.nodup_cons.mp hn).1
      simp [sum_map_ite_of_not_mem ks x c hxk]
    · have hk : x ≠ k := by
        rintro rfl
        exact (List.nodup_cons.mp hn).1 h
      simp [hk, ih (List.nodup_cons.mp hn).2 h]

/-- Partitioning a column sum along the distinct values of a key column:
summing a group-by result recovers the raw column sum. -/
theorem sum_map_filter_key {α κ : Type} [DecidableEq κ] (l : List α) (k : α → κ) (v : α → Int)
    (ks : List κ) (hn : ks.Nodup) (hcov : ∀ a ∈ l, k a ∈ ks) :
    (ks.map fun d => ((l.filter fun a => k a = d).map v).sum).sum = (l.map v).sum := by
  induction l with
  | nil => simp
  | cons a l ih =>
    have hstep : ∀ d ∈ ks,
        (((a :: l).filter fun x => k x = d).map v).sum
          = (fun d => (if k a = d then v a else 0)
              + ((l.filter fun x => k x = d).map v).sum) d := by
      intro d _
      by_cases h : k a = d
      · rw [List.filter_cons_of_pos (by simp [h])]
        simp [h]
      · rw [List.filter_cons_of_neg (by simp [h])]
        simp [h]
    rw [List.map_congr_left hstep, sum_map_add_int,
      sum_map_ite_of_mem ks (k a) (v a) hn (hcov a (List.mem_cons_self a l)),
      ih fun x hx => hcov x (List.mem_cons_of_mem a hx)]
    simp

theorem sum_map_flatMap {α β : Type} (l : List α) (g : α → List β) (v : β → Int) :
    ((l.flatMap g).map v).sum = (l.map fun a => ((g a).map v).sum).sum := by
  induction l with
  | nil => simp
  | cons a l ih => simp [ih]

/-! ## Facts about the country-code join (`total_cases_by_country`) -/

theorem mem_iso_mapping (data : List Record) (p : String × Option String) :
    p ∈ iso_mapping data ↔
      p ∈ data.map fun r => (r.countriesAndTerritories, r.countryterritoryCode) :=
  mem_firstSeen p _

/-- Every country appearing in the dataset contributes at least one pair to
the code lookup, so the left merge finds a match for it. -/
theorem iso_pairs_ne_nil (data : List Record) (c : String)
    (h : c ∈ countryKeys data) :
    ((iso_mapping data).filter fun p => p.1 = c) ≠ [] := by
  rw [mem_countryKeys] at h
  obtain ⟨r, hr, rfl⟩ := List.mem_map.mp h
  intro hnil
  have hmem : (r.countriesAndTerritories, r.countryterritoryCode)
      ∈ (iso_mapping data).filter fun p => p.1 = r.countriesAndTerritories := by
    rw [List.mem_filter]
    exact ⟨(mem_iso_mapping data _).mpr (List.mem_map.mpr ⟨r, hr, rfl⟩), by simp⟩
  simp [hnil] at hmem

/-- Under the data-model invariant, any two lookup pairs of the same
country agree. -/
theorem iso_pairs_all_eq (data : List Record) (hFD : CodeConsistent data) (c : String) :
    ∀ p ∈ (iso_mapping data).filter fun x => x.1 = c,
      ∀ q ∈ (iso_mapping data).filter fun x => x.1 = c, p = q := by
  intro p hp q hq
  rw [List.mem_filter] at hp hq
  obtain ⟨hp1, hp2⟩ := hp
  obtain ⟨hq1, hq2⟩ := hq
  rw [mem_iso_mapping] at hp1 hq1
  obtain ⟨r, hr, hrp⟩ := List.mem_map.mp hp1
  obtain ⟨u, hu, huq⟩ := List.mem_map.mp hq1
  simp only [decide_eq_true_eq] at hp2 hq2
  have hname : r.countriesAndTerritories = u.countriesAndTerritories := by
    have h1 : r.countriesAndTerritories = p.1 := by rw [← hrp]
    have h2 : u.countriesAndTerritories = q.1 := by rw [← huq]
    rw [h1, h2, hp2, hq2]
  have hcode := hFD r hr u hu hname
  rw [← hrp, ← huq, hname, hcode]

theorem nodup_all_eq_singleton {α : Type} (l : List α) (hn : l.Nodup) (hne : l ≠ [])
    (hall : ∀ x ∈ l, ∀ y ∈ l, x = y) : ∃ a, l = [a] := by
  cases l with
  | nil => exact absurd rfl hne
  | cons a t =>
    refine ⟨a, ?_⟩
    cases t with
    | nil => rfl
    | cons b t' =>
      exfalso
      have hab : a = b := hall a (by simp) b (by simp)
      exact (List.nodup_cons.mp hn).1 (by simp [hab])

/-- Under the data-model invariant the code lookup has exactly one row per
country present in the dataset. -/
theorem iso_pairs_singleton (data : List Record) (hFD : CodeConsistent data) (c : String)
    (h : c ∈ countryKeys data) :
    ∃ code, ((iso_mapping data).filter fun p => p.1 = c) = [(c, code)] := by
  obtain ⟨p, hlp⟩ := nodup_all_eq_singleton
    ((iso_mapping data).filter fun p => p.1 = c)
    ((nodup_firstSeen _).filter _) (iso_pairs_ne_nil data c h)
    (iso_pairs_all_eq data hFD c)
  refine ⟨p.2, ?_⟩
  have hp : p ∈ (iso_mapping data).filter fun x => x.1 = c := by
    rw [hlp]
    exact List.mem_singleton_self p
  have hp1 : p.1 = c := by simpa using (List.mem_filter.mp hp).2
  rw [hlp]
  cases p
  simp_all

/-- Every row of the merged Totals-by-country projection carries the cases
total of its own country, and its country occurs in the dataset. This
needs no invariant: a pandas left merge copies the left columns into every
matched row. -/
theorem mem_total_cases_by_country (data : List Record) (q : CountryTotal)
    (hq : q ∈ total_cases_by_country data) :
    q.countriesAndTerritories ∈ countryKeys data ∧
      q.cases = casesSum data q.countriesAndTerritories := by
  rw [total_cases_by_country] at hq
  simp only [List.mem_flatMap] at hq
  obtain ⟨c, hc, hq⟩ := hq
  by_cases he : ((iso_mapping data).filter fun p => p.1 = c).isEmpty
  · rw [if_pos he] at hq
    simp only [List.mem_singleton] at hq
    subst hq
    exact ⟨hc, rfl⟩
  · rw [if_neg he] at hq
    obtain ⟨p, hp, hq⟩ := List.mem_map.mp hq
    subst hq
    exact ⟨hc, rfl⟩

/-- Every row the merge emits for key `c` names country `c`. -/
theorem total_branch_names (data : List Record) (c : String) :
    ∀ q ∈ (if ((iso_mapping data).filter fun p => p.1 = c).isEmpty then
        [(⟨c, casesSum data c, none⟩ : CountryTotal)]
      else ((iso_mapping data).filter fun p => p.1 = c).map fun p =>
        ⟨c, casesSum data c, p.2⟩),
      q.countriesAndTerritories = c := by
  intro q hq
  by_cases he : ((iso_mapping data).filter fun p => p.1 = c).isEmpty
  · rw [if_pos he] at hq
    simp only [List.mem_singleton] at hq
    subst hq
    rfl
  · rw [if_neg he] at hq
    obtain ⟨p, hp, hq⟩ := List.mem_map.mp hq
    subst hq
    rfl

theorem sum_countryKeys (data : List Record) :
    ((countryKeys data).map fun c => casesSum data c).sum = (data.map Record.cases).sum :=
  sum_map_filter_key data Record.countriesAndTerritories Record.cases (countryKeys data)
    (nodup_sortedKeys _)
    (fun r hr => (mem_countryKeys data _).mpr (List.mem_map.mpr ⟨r, hr, rfl⟩))

theorem sum_dateKeys (data : List Record) :
    ((dateKeys data).map fun d => dailySum data d).sum = (data.map Record.cases).sum :=
  sum_map_filter_key data Record.dateRep Record.cases (dateKeys data)
    (nodup_sortedKeys _)
    (fun r hr => (mem_dateKeys data _).mpr (List.mem_map.mpr ⟨r, hr, rfl⟩))

/-- Under the data-model invariant the merge is one-to-one, so the merged
projection still sums to the raw `cases` column. -/
theorem sum_total_cases_by_country (data : List Record) (hFD : CodeConsistent data) :
    ((total_cases_by_country data).map CountryTotal.cases).sum
      = (data.map Record.cases).sum := by
  rw [total_cases_by_country, sum_map_flatMap]
  have hcong : ∀ c ∈ countryKeys data,
      ((if ((iso_mapping data).filter fun p => p.1 = c).isEmpty then
          [(⟨c, casesSum data c, none⟩ : CountryTotal)]
        else ((iso_mapping data).filter fun p => p.1 = c).map fun p =>
          ⟨c, casesSum data c, p.2⟩).map CountryTotal.cases).sum
        = casesSum data c := by
    intro c hc
    obtain ⟨code, hcode⟩ := iso_pairs_singleton data hFD c hc
    rw [hcode]
    simp
  have h2 : ((countryKeys data).map fun c =>
        ((if ((iso_mapping data).filter fun p => p.1 = c).isEmpty then
          [(⟨c, casesSum data c, none⟩ : CountryTotal)]
        else ((iso_mapping data).filter fun p => p.1 = c).map fun p =>
          ⟨c, casesSum data c, p.2⟩).map CountryTotal.cases).sum)
      = (countryKeys data).map fun c => casesSum data c :=
    List.map_congr_left hcong
  rw [h2]
  exact sum_countryKeys data

/-- Under the data-model invariant the merged projection has exactly one
row per distinct country. -/
theorem length_total_cases_by_country (data : List Record) (hFD : CodeConsistent data) :
    (total_cases_by_country data).length = (countryKeys data).length := by
  rw [total_cases_by_country, List.length_flatMap]
  simp only [Function.comp_def]
  have hcong : ∀ c ∈ countryKeys data,
      (if ((iso_mapping data).filter fun p => p.1 = c).isEmpty then
          [(⟨c, casesSum data c, none⟩ : CountryTotal)]
        else ((iso_mapping data).filter fun p => p.1 = c).map fun p =>
          ⟨c, casesSum data c, p.2⟩).length = 1 := by
    intro c hc
    obtain ⟨code, hcode⟩ := iso_pairs_singleton data hFD c hc
    rw [hcode]
    simp
  have h2 : ((countryKeys data).map fun c =>
        (if ((iso_mapping data).filter fun p => p.1 = c).isEmpty then
          [(⟨c, casesSum data c, none⟩ : CountryTotal)]
        else ((iso_mapping data).filter fun p => p.1 = c).map fun p =>
          ⟨c, casesSum data c, p.2⟩).length)
      = (countryKeys data).map fun _ => 1 :=
    List.map_congr_left hcong
  rw [h2]
  simp

theorem filter_flatMap_of_not_mem {κ α : Type} [DecidableEq κ] (ks : List κ)
    (B : κ → List α) (nm : α → κ) (hB : ∀ k, ∀ q ∈ B k, nm q = k) (c : κ)
    (hc : c ∉ ks) : ((ks.flatMap B).filter fun q => nm q = c) = [] := by
  induction ks with
  | nil => rfl
  | cons k ks ih =>
    simp only [List.mem_cons, not_or] at hc
    rw [List.flatMap_cons, List.filter_append, ih hc.2, List.append_nil]
    refine List.filter_eq_nil_iff.mpr fun q hq => ?_
    simp only [decide_eq_true_eq]
    rw [hB k q hq]
    exact fun h => hc.1 h.symm

theorem filter_flatMap_of_mem {κ α : Type} [DecidableEq κ] (ks : List κ)
    (B : κ → List α) (nm : α → κ) (hB : ∀ k, ∀ q ∈ B k, nm q = k) (c : κ)
    (hn : ks.Nodup) (hc : c ∈ ks) :
    ((ks.flatMap B).filter fun q => nm q = c) = B c := by
  induction ks with
  | nil => cases hc
  | cons k ks ih =>
    rw [List.flatMap_cons, List.filter_append]
    rcases List.mem_cons.mp hc with h | h
    · subst h
      rw [filter_flatMap_of_not_mem ks B nm hB c (List.nodup_cons.mp hn).1,
        List.append_nil]
      refine List.filter_eq_self.mpr fun q hq => ?_
      simp [hB c q hq]
    · have hkc : (B k).filter (fun q => nm q = c) = [] := by
        refine List.filter_eq_nil_iff.mpr fun q hq => ?_
        simp only [decide_eq_true_eq]
        rw [hB k q hq]
        rintro rfl
        exact (List.nodup_cons.mp hn).1 h
      rw [hkc, ih (List.nodup_cons.mp hn).2 h, List.nil_append]

/-- The rows of the merged projection that name country `c` are exactly the
merge branch of `c`. -/
theorem total_filter_country (data : List Record) (c : String)
    (h : c ∈ countryKeys data) :
    (total_cases_by_country data).filter (fun q => q.countriesAndTerritories = c)
      = (if ((iso_mapping data).filter fun p => p.1 = c).isEmpty then
          [(⟨c, casesSum data c, none⟩ : CountryTotal)]
        else ((iso_mapping data).filter fun p => p.1 = c).map fun p =>
          ⟨c, casesSum data c, p.2⟩) := by
  rw [total_cases_by_country]
  exact filter_flatMap_of_mem (countryKeys data) _ CountryTotal.countriesAndTerritories
    (total_branch_names data) c (nodup_sortedKeys _) h

/-! ## Facts about the range query -/

/-- The two successive filters of the range query compose into one filter
on the conjunction of the country and window conditions. -/
theorem mask_eq_filter (data : List Record) (c : String) (s e : Date) :
    mask (avg_period_country_cases data c) s e
      = data.filter fun r =>
          r.countriesAndTerritories = c ∧ s ≤ r.dateRep ∧ r.dateRep ≤ e := by
  rw [mask, avg_period_country_cases, List.filter_filter]
  refine List.filter_congr fun r hr => ?_
  by_cases h1 : r.countriesAndTerritories = c <;>
    by_cases h2 : s ≤ r.dateRep <;>
      by_cases h3 : r.dateRep ≤ e <;>
        simp [h1, h2, h3]

theorem avg_cases_of_empty (data : List Record) (c : String) (s e : Date)
    (h : mask (avg_period_country_cases data c) s e = []) :
    avg_cases data c s e = none := by
  rw [avg_cases]
  simp [h]

theorem avg_cases_of_ne_empty (data : List Record) (c : String) (s e : Date)
    (h : mask (avg_period_country_cases data c) s e ≠ []) :
    avg_cases data c s e
      = some (((mask (avg_period_country_cases data c) s e).map
            fun r => (r.cases : ℚ)).sum
          / ((mask (avg_period_country_cases data c) s e).length : ℚ)) := by
  rw [avg_cases]
  simp [List.isEmpty_iff, h]

/-- A one-day window keeps exactly the records of that day. -/
theorem mask_single_day (data : List Record) (c : String) (d : Date) :
    mask (avg_period_country_cases data c) d d
      = data.filter fun r => r.countriesAndTerritories = c ∧ r.dateRep = d := by
  rw [mask_eq_filter]
  refine List.filter_congr fun r hr => ?_
  simp only [decide_eq_decide]
  constructor
  · rintro ⟨h1, h2, h3⟩
    exact ⟨h1, le_antisymm h3 h2⟩
  · rintro ⟨h1, rfl⟩
    exact ⟨h1, le_refl _, le_refl _⟩

theorem length_countryKeys (data : List Record) :
    (countryKeys data).length
      = (data.map Record.countriesAndTerritories).toFinset.card := by
  rw [countryKeys, ← List.toFinset_card_of_nodup (nodup_sortedKeys _)]
  congr 1
  refine Finset.ext fun a => ?_
  simp only [List.mem_toFinset]
  exact mem_sortedKeys a _

/-! ## The claims -/

/-- Claim C1: for every Record set (satisfying the §3 invariant that
`country_code` is constant per country name), the sum of `total_cases`
over all rows of the Totals-by-country projection and the sum of
`total_cases` over all rows of the Daily projection both equal the sum of
the raw `cases` column: the three aggregation paths agree. -/
theorem C1_aggregation_paths_agree (data : List Record) (hFD : CodeConsistent data) :
    ((total_cases_by_country data).map CountryTotal.cases).sum
        = (data.map Record.cases).sum
    ∧ ((daily_cases data).map DailyTotal.cases).sum = (data.map Record.cases).sum := by
  refine ⟨sum_total_cases_by_country data hFD, ?_⟩
  rw [daily_cases, List.map_map]
  exact sum_dateKeys data

/-- Witness for C1 at the spec §8 scenario. -/
theorem C1_witness :
    CodeConsistent scenarioData
    ∧ (((total_cases_by_country scenarioData).map CountryTotal.cases).sum
          = (scenarioData.map Record.cases).sum
      ∧ ((daily_cases scenarioData).map DailyTotal.cases).sum
          = (scenarioData.map Record.cases).sum) :=
  ⟨by decide, C1_aggregation_paths_agree scenarioData (by decide)⟩

/-- Claim C7: the Daily projection has one row per distinct date of the
Record set — its date column is strictly ascending and a pair `(d, t)` is
a row exactly when `d` occurs in the data and `t` is the sum of `cases`
over all records (all countries) dated `d`. -/
theorem C7_daily_rows (data : List Record) :
    ((daily_cases data).map DailyTotal.dateRep).Sorted (· < ·)
    ∧ ∀ d t, (⟨d, t⟩ : DailyTotal) ∈ daily_cases data ↔
        (d ∈ data.map Record.dateRep ∧ t = dailySum data d) := by
  constructor
  · rw [daily_cases, List.map_map]
    have hid : (DailyTotal.dateRep ∘ fun d => (⟨d, dailySum data d⟩ : DailyTotal)) = id :=
      rfl
    rw [hid, List.map_id, dateKeys]
    exact strictSorted_sortedKeys _
  · intro d t
    rw [daily_cases]
    constructor
    · intro h
      obtain ⟨d2, hd2, heq⟩ := List.mem_map.mp h
      rw [DailyTotal.mk.injEq] at heq
      obtain ⟨rfl, rfl⟩ := heq
      exact ⟨(mem_dateKeys data d2).mp hd2, rfl⟩
    · rintro ⟨hd, rfl⟩
      exact List.mem_map.mpr ⟨d, (mem_dateKeys data d).mpr hd, rfl⟩

/-- Claim C9: for every country occurring in the Record set, the
Cases-vs-deaths projection and the Totals-by-country projection both have
a row for it, and any two such rows agree on the cases total. -/
theorem C9_totals_consistent (data : List Record) (c : String)
    (h : c ∈ data.map Record.countriesAndTerritories) :
    (∃ p ∈ cases_deaths data, p.countriesAndTerritories = c)
    ∧ (∃ q ∈ total_cases_by_country data, q.countriesAndTerritories = c)
    ∧ ∀ p ∈ cases_deaths data, p.countriesAndTerritories = c →
        ∀ q ∈ total_cases_by_country data, q.countriesAndTerritories = c →
          p.cases = q.cases := by
  have hck : c ∈ countryKeys data := (mem_countryKeys data c).mpr h
  refine ⟨⟨⟨c, casesSum data c, deathsSum data c⟩,
    List.mem_map.mpr ⟨c, hck, rfl⟩, rfl⟩, ?_, ?_⟩
  · have hne := iso_pairs_ne_nil data c hck
    obtain ⟨p0, hp0⟩ : ∃ p0, p0 ∈ (iso_mapping data).filter fun p => p.1 = c := by
      cases hl : (iso_mapping data).filter fun p => p.1 = c with
      | nil => exact absurd hl hne
      | cons x xs => exact ⟨x, List.mem_cons_self x xs⟩
    refine ⟨⟨c, casesSum data c, p0.2⟩, ?_, rfl⟩
    rw [total_cases_by_country]
    refine List.mem_flatMap.mpr ⟨c, hck, ?_⟩
    rw [if_neg (by simp [List.isEmpty_iff, hne])]
    exact List.mem_map.mpr ⟨p0, hp0, rfl⟩
  · intro p hp hpc q hq hqc
    obtain ⟨c2, hc2, hp2⟩ := List.mem_map.mp hp
    have hpcases : p.cases = casesSum data p.countriesAndTerritories := by
      rw [← hp2]
    rw [hpcases, hpc, (mem_total_cases_by_country data q hq).2, hqc]

/-- Witness for C9 at the spec §8 scenario. -/
theorem C9_witness :
    "B" ∈ scenarioData.map Record.countriesAndTerritories
    ∧ ((∃ p ∈ cases_deaths scenarioData, p.countriesAndTerritories = "B")
      ∧ (∃ q ∈ total_cases_by_country scenarioData, q.countriesAndTerritories = "B")
      ∧ ∀ p ∈ cases_deaths scenarioData, p.countriesAndTerritories = "B" →
          ∀ q ∈ total_cases_by_country scenarioData, q.countriesAndTerritories = "B" →
            p.cases = q.cases) :=
  ⟨by decide, C9_totals_consistent scenarioData "B" (by decide)⟩

/-- Claim C3: under the §3 invariant, RankedTop10 is sorted with
non-increasing cases totals and its length is the minimum of 10 and the
number of distinct country names of the Record set. -/
theorem C3_top_countries (data : List Record) (hFD : CodeConsistent data) :
    (top_countries data).Sorted (fun a b => b.cases ≤ a.cases)
    ∧ (top_countries data).length
        = min 10 (data.map Record.countriesAndTerritories).toFinset.card := by
  constructor
  · have hs : (List.insertionSort casesDesc (total_cases_by_country data)).Sorted casesDesc :=
      List.sorted_insertionSort casesDesc _
    exact hs.sublist (List.take_sublist 10 _)
  · rw [top_countries, List.length_take, List.length_insertionSort,
      length_total_cases_by_country data hFD, length_countryKeys]

/-- Witness for C3 at the spec §8 scenario. -/
theorem C3_witness :
    CodeConsistent scenarioData
    ∧ ((top_countries scenarioData).Sorted (fun a b => b.cases ≤ a.cases)
      ∧ (top_countries scenarioData).length
          = min 10 (scenarioData.map Record.countriesAndTerritories).toFinset.card) :=
  ⟨by decide, C3_top_countries scenarioData (by decide)⟩

/-- Claim C2: when no record of the country falls in the inclusive window,
the range query returns the distinct no-data signal `none` — never a
number, in particular never `0`; when at least one record matches it
returns `some` of the arithmetic mean of the matching `cases` values. -/
theorem C2_no_data_signal (data : List Record) (c : String) (s e : Date) :
    ((∀ r ∈ data, r.countriesAndTerritories = c → ¬(s ≤ r.dateRep ∧ r.dateRep ≤ e)) →
      avg_cases data c s e = none)
    ∧ ((∃ r ∈ data, r.countriesAndTerritories = c ∧ s ≤ r.dateRep ∧ r.dateRep ≤ e) →
      avg_cases data c s e
        = some (((mask (avg_period_country_cases data c) s e).map
              fun r => (r.cases : ℚ)).sum
            / ((mask (avg_period_country_cases data c) s e).length : ℚ))) := by
  constructor
  · intro hnone
    apply avg_cases_of_empty
    rw [mask_eq_filter]
    refine List.filter_eq_nil_iff.mpr fun r hr => ?_
    simp only [decide_eq_true_eq]
    rintro ⟨h1, h2, h3⟩
    exact hnone r hr h1 ⟨h2, h3⟩
  · rintro ⟨r, hr, h1, h2, h3⟩
    apply avg_cases_of_ne_empty
    rw [mask_eq_filter]
    intro hnil
    have hmem : r ∈ data.filter fun r =>
        r.countriesAndTerritories = c ∧ s ≤ r.dateRep ∧ r.dateRep ≤ e := by
      rw [List.mem_filter]
      exact ⟨hr, by simp [h1, h2, h3]⟩
    rw [hnil] at hmem
    cases hmem

/-- Witness for C2: an empty window on the §8 scenario yields `none`, a
matching one the mean 15. -/
theorem C2_witness :
    avg_cases scenarioData "A" ⟨2021, 1, 1⟩ ⟨2021, 2, 1⟩ = none
    ∧ avg_cases scenarioData "A" ⟨2020, 1, 1⟩ ⟨2020, 1, 2⟩ = some 15 := by
  constructor
  · exact (C2_no_data_signal scenarioData "A" ⟨2021, 1, 1⟩ ⟨2021, 2, 1⟩).1 (by decide)
  · have h := (C2_no_data_signal scenarioData "A" ⟨2020, 1, 1⟩ ⟨2020, 1, 2⟩).2
      ⟨⟨⟨2020, 1, 1⟩, "A", some "AAA", 10, 1⟩, by decide⟩
    have hm : mask (avg_period_country_cases scenarioData "A") ⟨2020, 1, 1⟩ ⟨2020, 1, 2⟩
        = [⟨⟨2020, 1, 1⟩, "A", some "AAA", 10, 1⟩,
           ⟨⟨2020, 1, 2⟩, "A", some "AAA", 20, 2⟩] := by
      decide
    rw [h, hm]
    norm_num

/-- Claim C5: a window with `start_date = end_date = d` averages exactly
the records of the country dated `d`, and is the no-data signal when there
is no such record (both bounds are inclusive). -/
theorem C5_single_day (data : List Record) (c : String) (d : Date) :
    ((data.filter fun r => r.countriesAndTerritories = c ∧ r.dateRep = d) = [] →
      avg_cases data c d d = none)
    ∧ ((data.filter fun r => r.countriesAndTerritories = c ∧ r.dateRep = d) ≠ [] →
      avg_cases data c d d
        = some ((((data.filter fun r =>
                r.countriesAndTerritories = c ∧ r.dateRep = d)).map
              fun r => (r.cases : ℚ)).sum
            / (((data.filter fun r =>
                r.countriesAndTerritories = c ∧ r.dateRep = d)).length : ℚ))) := by
  constructor
  · intro hnil
    apply avg_cases_of_empty
    rw [mask_single_day]
    exact hnil
  · intro hne
    rw [avg_cases_of_ne_empty data c d d (by rw [mask_single_day]; exact hne),
      mask_single_day]

/-- Witness for C5 on the §8 scenario: country A on the first day averages
10; country B has no record on the second day. -/
theorem C5_witness :
    avg_cases scenarioData "A" ⟨2020, 1, 1⟩ ⟨2020, 1, 1⟩ = some 10
    ∧ avg_cases scenarioData "B" ⟨2020, 1, 2⟩ ⟨2020, 1, 2⟩ = none := by
  constructor
  · have h := (C5_single_day scenarioData "A" ⟨2020, 1, 1⟩).2 (by decide)
    have hf : (scenarioData.filter fun r =>
          r.countriesAndTerritories = "A" ∧ r.dateRep = ⟨2020, 1, 1⟩)
        = [⟨⟨2020, 1, 1⟩, "A", some "AAA", 10, 1⟩] := by
      decide
    rw [h, hf]
    norm_num
  · exact (C5_single_day scenarioData "B" ⟨2020, 1, 2⟩).1 (by decide)

/-- Claim C6: a reversed window (`start_date > end_date`) filters out
every row, so the query degrades into the same no-data path as any other
empty window; the embedded query is total, raising no separate error. -/
theorem C6_reversed_window (data : List Record) (c : String) (s e : Date)
    (h : e < s) :
    mask (avg_period_country_cases data c) s e = []
    ∧ avg_cases data c s e = none := by
  have hmask : mask (avg_period_country_cases data c) s e = [] := by
    rw [mask_eq_filter]
    refine List.filter_eq_nil_iff.mpr fun r hr => ?_
    simp only [decide_eq_true_eq]
    rintro ⟨h1, h2, h3⟩
    exact absurd (le_trans h2 h3) (not_le.mpr h)
  exact ⟨hmask, avg_cases_of_empty data c s e hmask⟩

/-- Witness for C6: a reversed window on the §8 scenario. -/
theorem C6_witness :
    (⟨2020, 1, 1⟩ : Date) < ⟨2020, 1, 2⟩
    ∧ (mask (avg_period_country_cases scenarioData "A") ⟨2020, 1, 2⟩ ⟨2020, 1, 1⟩ = []
      ∧ avg_cases scenarioData "A" ⟨2020, 1, 2⟩ ⟨2020, 1, 1⟩ = none) :=
  ⟨by decide,
    C6_reversed_window scenarioData "A" ⟨2020, 1, 2⟩ ⟨2020, 1, 1⟩ (by decide)⟩

/-- Claim C8: the rows fed to the monthly-per-country view are the
selected country's records (with the truncated label appended) ordered by
the pre-truncation `dateRep` column, not by the truncated text label. -/
theorem C8_monthly_rows_chronological (data : List Record) (country : String) :
    (country_cases data country).Sorted (fun a b => a.dateRep ≤ b.dateRep)
    ∧ List.Perm (country_cases data country)
        ((data.filter fun r => r.countriesAndTerritories = country).map addYearMonth) :=
  ⟨List.sorted_insertionSort dateAsc _, List.perm_insertionSort dateAsc _⟩

theorem runOp_base (base : List Record) (op : Op) : (runOp base op).1 = base := by
  cases op <;> rfl

/-- Claim C10: no aggregation or query mutates the loaded base Record set:
running any sequence of the five operations leaves the base dataset the
Loader produced unchanged (the monthly view and the range query mutate
only their `.copy()`). -/
theorem C10_no_mutation (base : List Record) (ops : List Op) :
    runOps base ops = base := by
  induction ops generalizing base with
  | nil => rfl
  | cons op ops ih =>
    rw [show runOps base (op :: ops) = runOps ((runOp base op).1) ops from rfl,
      runOp_base]
    exact ih base

/-- Claim C4 (counterexample): on a dataset where country A carries two
distinct codes, the Totals-by-country projection has two rows for A, not
the single row the claim asserts. -/
theorem C4_counterexample :
    ((total_cases_by_country inconsistentData).filter
        fun q => q.countriesAndTerritories = "A").length = 2
    ∧ ((total_cases_by_country inconsistentData).filter
        fun q => q.countriesAndTerritories = "A").length ≠ 1 := by
  decide

/-- Claim C4 (amended): for a country occurring in the Record set, the
Totals-by-country projection contains one row per distinct
(country_name, country_code) pair of that country — the pairs kept by the
first-seen deduplication, in that order — and every one of its rows
carries the country's full cases total. It has exactly one row for the
country only when all its records share one code value. -/
theorem C4_rows_follow_dedup_pairs (data : List Record) (c : String)
    (h : c ∈ data.map Record.countriesAndTerritories) :
    ((total_cases_by_country data).filter
        fun q => q.countriesAndTerritories = c).map
          (fun q => (q.countriesAndTerritories, q.countryterritoryCode))
      = (iso_mapping data).filter (fun p => p.1 = c)
    ∧ ∀ q ∈ total_cases_by_country data, q.countriesAndTerritories = c →
        q.cases = casesSum data c := by
  have hck : c ∈ countryKeys data := (mem_countryKeys data c).mpr h
  constructor
  · rw [total_filter_country data c hck,
      if_neg (by simp [List.isEmpty_iff, iso_pairs_ne_nil data c hck]),
      List.map_map]
    have hpt : ∀ p ∈ (iso_mapping data).filter fun p => p.1 = c,
        ((fun q : CountryTotal => (q.countriesAndTerritories, q.countryterritoryCode))
            ∘ fun p : String × Option String =>
              (⟨c, casesSum data c, p.2⟩ : CountryTotal)) p = id p := by
      intro p hp
      have hpc : p.1 = c := by simpa using (List.mem_filter.mp hp).2
      rcases p with ⟨p1, p2⟩
      simp only at hpc
      subst hpc
      rfl
    rw [List.map_congr_left hpt, List.map_id]
  · intro q hq hqc
    have hcases := (mem_total_cases_by_country data q hq).2
    rw [hqc] at hcases
    exact hcases

/-- Witness for the amended C4 at the two-code dataset: the two rows of A
mirror the two deduplicated pairs. -/
theorem C4_amended_witness :
    "A" ∈ inconsistentData.map Record.countriesAndTerritories
    ∧ (((total_cases_by_country inconsistentData).filter
          fun q => q.countriesAndTerritories = "A").map
            (fun q => (q.countriesAndTerritories, q.countryterritoryCode))
        = (iso_mapping inconsistentData).filter (fun p => p.1 = "A")
      ∧ ∀ q ∈ total_cases_by_country inconsistentData,
          q.countriesAndTerritories = "A" →
            q.cases = casesSum inconsistentData "A") :=
  ⟨by decide, C4_rows_follow_dedup_pairs inconsistentData "A" (by decide)⟩

end Covid
